import Mathlib

/-!
Verification of the matching engine of `app.py` (food reconciliation UI).

The Python source is shallowly embedded below.  Python strings are modelled
as Lean `String`/`List Char` (ASCII model of `str.lower`, `str.isalnum`,
whitespace), Python floats as `ℚ` (with `round(x, 1)` modelled as rounding
half-up to one decimal), and fallible operations as `Except`/`Option`.

External library collaborators (rapidfuzz's `fuzz.WRatio`,
`fuzz.partial_ratio`, `fuzz.token_set_ratio`, `process.extract`, and
textdistance's phonetic/edit-distance primitives) are not part of this
repository; they are modelled at their interface boundary as parameters
(`SimLib`, `ExtractLib`) constrained only by their documented output ranges.
The HTTP provider (OpenFoodFacts) is modelled as a function from request
keys to either a raw response or a transport failure.
-/

namespace FoodRecon

/-! ### Python string primitives (`_safe_str`, `normalize`) -/

/-- Whitespace predicate used to model Python's `str.strip()` / `str.split()`. -/
def pySpace (c : Char) : Bool := c.isWhitespace

/-- Model of Python `str.strip()`: drop whitespace from both ends. -/
def pyStripList (l : List Char) : List Char :=
  ((l.dropWhile pySpace).reverse.dropWhile pySpace).reverse

/-- `_safe_str` from `app.py` restricted to string inputs (the `None`/`NaN`
cases of the source are handled before values reach the engine in this
model): `str(x).strip()`. -/
def safeStr (s : String) : String := String.mk (pyStripList s.data)

/-- The character filter of `normalize`: keep alphanumerics and `&`, `-`,
`'`, space. -/
def keepCh (c : Char) : Bool :=
  c.isAlphanum || c == '&' || c == '-' || c == '\'' || c == ' '

/-- One step of `normalize`'s comprehension:
`ch if ch.isalnum() or ch in ("&", "-", "'", " ") else " "`. -/
def keepOrSpace (c : Char) : Char := if keepCh c then c else ' '

/-- Model of Python `s.split()`: split on whitespace runs, dropping empty
chunks. -/
def pyWords (l : List Char) : List (List Char) :=
  (l.splitOnP pySpace).filter (· ≠ [])

/-- Model of Python `sep.join(ws)`. -/
def pyJoin (sep : List Char) : List (List Char) → List Char
  | [] => []
  | [w] => w
  | w :: ws => w ++ sep ++ pyJoin sep ws

/-- `normalize` from `app.py`, working on character lists:
strip, lowercase, replace non-kept characters by spaces, then
`" ".join(s.split())`. -/
def normalizeList (l : List Char) : List Char :=
  let low := (pyStripList l).map Char.toLower
  let kept := low.map keepOrSpace
  pyJoin [' '] (pyWords kept)

/-- `normalize` from `app.py`. -/
def normalize (s : String) : String := String.mk (normalizeList s.data)

/-! ### Numeric model -/

/-- Model of Python `round(x, 1)` on `ℚ` (round half up to one decimal). -/
def round1 (x : ℚ) : ℚ := (round (x * 10) : ℤ) / 10

/-- Model of Python's truthy string disjunction `a or b` (for strings). -/
def pyOr (a b : String) : String := if a = "" then b else a

/-! ### External similarity library (rapidfuzz / textdistance), modelled at
its interface boundary -/

/-- The similarity primitives `app.py` imports from rapidfuzz and
textdistance.  `pratio` stands for rapidfuzz's partial-ratio function. -/
structure SimLib where
  wratio : String → String → ℚ
  pratio : String → String → ℚ
  tokenSetRatio : String → String → ℚ
  /-- `textdistance.damerau_levenshtein.normalized_distance`, in `0..1`. -/
  dlNormalized : String → String → ℚ
  /-- `textdistance.damerau_levenshtein.distance` (raw edit distance). -/
  dlDistance : String → String → ℕ
  metaphone : String → String
  nysiis : String → String
  /-- `textdistance.hamming.normalized_distance`, in `0..1`. -/
  hammingNormalized : String → String → ℚ
  /-- `textdistance.levenshtein.normalized_distance`, in `0..1`. -/
  levenshteinNormalized : String → String → ℚ

/-- Documented output ranges of the external similarity primitives:
rapidfuzz ratios return values in `[0, 100]`, normalized distances in
`[0, 1]`. -/
structure SimLibRanges (L : SimLib) : Prop where
  wratio_nonneg : ∀ a b, 0 ≤ L.wratio a b
  wratio_le : ∀ a b, L.wratio a b ≤ 100
  pratio_nonneg : ∀ a b, 0 ≤ L.pratio a b
  pratio_le : ∀ a b, L.pratio a b ≤ 100
  tokenSetRatio_nonneg : ∀ a b, 0 ≤ L.tokenSetRatio a b
  tokenSetRatio_le : ∀ a b, L.tokenSetRatio a b ≤ 100
  dlNormalized_nonneg : ∀ a b, 0 ≤ L.dlNormalized a b
  dlNormalized_le : ∀ a b, L.dlNormalized a b ≤ 1
  hammingNormalized_nonneg : ∀ a b, 0 ≤ L.hammingNormalized a b
  hammingNormalized_le : ∀ a b, L.hammingNormalized a b ≤ 1
  levenshteinNormalized_nonneg : ∀ a b, 0 ≤ L.levenshteinNormalized a b
  levenshteinNormalized_le : ∀ a b, L.levenshteinNormalized a b ≤ 1

/-! ### The similarity ensemble (`keyboard_distance`, `phonetic_score`,
`score_candidate`) -/

/-- `keyboard_distance` from `app.py`: Damerau–Levenshtein normalized
similarity in `0..100`. -/
def keyboard_distance (L : SimLib) (a b : String) : ℚ :=
  let an := normalize a
  let bn := normalize b
  if an = "" ∧ bn = "" then 100
  else round1 ((1 - L.dlNormalized an bn) * 100)

/-- `phonetic_score` from `app.py`: metaphone-code equality, with a NYSIIS
fallback.  The source's `try/except` cannot fire in this model because the
modelled library functions are total. -/
def phonetic_score (L : SimLib) (a b : String) : ℚ :=
  let an := normalize a
  let bn := normalize b
  if an = "" ∨ bn = "" then 0
  else
    let ma := L.metaphone an
    let mb := L.metaphone bn
    if ma ≠ "" ∧ mb ≠ "" ∧ ma = mb then 100
    else
      let na := L.nysiis an
      let nb := L.nysiis bn
      if na ≠ "" ∧ nb ≠ "" then
        let sim :=
          if na.length = nb.length then 1 - L.hammingNormalized na nb
          else 1 - L.levenshteinNormalized na nb
        round1 (max 0 (min 1 sim) * 100)
      else 0

/-- The short-edit-bonus block of `score_candidate` (lines 147-163 of
`app.py`), applied to the already-normalized names `qn`, `cn`. -/
def short_edit_bonus (L : SimLib) (qn cn : String) : ℚ :=
  let ed := L.dlDistance qn cn
  if max qn.length cn.length ≤ 5 then
    if ed = 0 then 0
    else if ed = 1 then 25
    else if ed = 2 then 12
    else 0
  else
    if ed = 1 then 8
    else 0

/-- The short-edit bonus as worded by the spec (§4.2 step 3), stated as a
function of the raw edit distance and the maximum name length; used to
compare the source's control flow against the spec's case analysis. -/
def specShortEditBonus (ed maxLen : ℕ) : ℚ :=
  if maxLen ≤ 5 then
    if ed = 1 then 25 else if ed = 2 then 12 else 0
  else
    if ed = 1 then 8 else 0

/-- The per-signal breakdown dictionary returned by `score_candidate`. -/
structure Breakdown where
  wratio : ℚ
  pratio : ℚ
  tokenSet : ℚ
  keyboard : ℚ
  phonetic : ℚ
  brandBonus : ℚ
  shortEditBonus : ℚ
  final : ℚ
deriving DecidableEq

/-- `score_candidate` from `app.py`: the weighted ensemble
(weights 0.30 / 0.15 / 0.15 / 0.25 / 0.15), brand bonus and short-edit
bonus, capped at 100 and rounded to one decimal. -/
def score_candidate (L : SimLib) (query_name cand_name query_brand cand_brand : String)
    (brand_weight : ℚ) : ℚ × Breakdown :=
  let qn := normalize query_name
  let cn := normalize cand_name
  let qb := normalize query_brand
  let cb := normalize cand_brand
  if qn = "" ∨ cn = "" then (0, ⟨0, 0, 0, 0, 0, 0, 0, 0⟩)
  else
    let w := L.wratio qn cn
    let p := L.pratio qn cn
    let t := L.tokenSetRatio qn cn
    let kd := keyboard_distance L qn cn
    let ph := phonetic_score L qn cn
    let seb := short_edit_bonus L qn cn
    let base := 3/10 * w + 3/20 * p + 3/20 * t + 1/4 * kd + 3/20 * ph
    let bb : ℚ :=
      if qb ≠ "" ∧ cb ≠ "" ∧ (qb.data <:+: cb.data ∨ cb.data <:+: qb.data)
      then brand_weight else 0
    let final := min 100 (base + bb + seb)
    (round1 final,
      ⟨round1 w, round1 p, round1 t, round1 kd, round1 ph, bb, seb, round1 final⟩)

/-! ### OpenFoodFacts provider and the lru-cached fetch
(`_off_cached`, `off_search_api`) -/

/-- One product entry of a well-formed provider response.  All JSON fields
are modelled as strings, with `""` standing for an absent key (Python's
`dict.get` defaults and `or` chains treat both identically for strings). -/
structure Product where
  code : String
  idUnderscore : String
  product_name : String
  generic_name : String
  brands : String
  categories : String
  image_small_url : String
  image_url : String
deriving DecidableEq

/-- A raw provider response body, as cached by `_off_cached`, classified by
how `off_search_api` consumes it:

* `products ps` — text parsing to a JSON object whose `products` value is a
  well-typed array of objects;
* `malformed` — text on which `json.loads` or `data.get("products", [])`
  raises (not JSON, or a non-object top level): caught by the `try/except`,
  yielding an empty product list;
* `illTyped` — text parsing to an object whose `products` value is not a
  list of objects (for example a number, a string, or an array containing a
  bare number): `json.loads` and `.get` succeed, but the candidate-building
  `for p in products` loop — which sits outside the `try` — raises an
  uncaught `TypeError`/`AttributeError`. -/
inductive Raw where
  | products (ps : List Product)
  | malformed
  | illTyped
deriving DecidableEq

-- Decidable equality of `Except` results, for evaluating fetch results on
-- concrete inputs.
deriving instance DecidableEq for Except

/-- Cache key of `_off_cached`: `(query, brand, page_size)`. -/
abbrev OffKey := String × Option String × ℕ

/-- The external HTTP provider: a successful response body, or a transport
error / timeout / non-success status (everything the source's
`except Exception` catches). -/
abbrev Provider := OffKey → Except Unit Raw

/-- The lru cache state of `_off_cached`, most recently used first. -/
abbrev CacheState := List (OffKey × Raw)

/-- Association lookup in the cache. -/
def cacheLookup (st : CacheState) (k : OffKey) : Option Raw :=
  (st.find? (fun p => p.1 = k)).map Prod.snd

/-- `functools.lru_cache` behavior: on hit, move the entry to the front and
return the cached value without calling `f`; on miss, call `f`, insert at
the front and evict beyond capacity.  The returned `Bool` records whether
`f` was invoked. -/
def lruGet (cap : ℕ) (f : OffKey → Raw) (st : CacheState) (k : OffKey) :
    Raw × CacheState × Bool :=
  match cacheLookup st k with
  | some v => (v, (k, v) :: st.filter (fun p => p.1 ≠ k), false)
  | none =>
    let v := f k
    (v, ((k, v) :: st).take cap, true)

/-- The body of `_off_cached` from `app.py`: perform the request; on any
exception return `json.dumps({"products": []})`. -/
def offRequest (provider : Provider) (k : OffKey) : Raw :=
  match provider k with
  | .ok r => r
  | .error _ => Raw.products []

/-- `_off_cached` from `app.py`: the request body behind an lru cache of
capacity 2048, keyed by `(query, brand, page_size)`. -/
def off_cached (provider : Provider) (st : CacheState) (k : OffKey) :
    Raw × CacheState × Bool :=
  lruGet 2048 (offRequest provider) st k

/-- A candidate dictionary as built by `off_search_api` from one raw
product entry. -/
structure Candidate where
  id : String
  product_name : String
  brands : String
  categories : String
  image_small_url : String
  image_url : String
deriving DecidableEq

/-- The per-product dictionary construction of `off_search_api`
(`p.get("code","") or p.get("_id","")`, `p.get("product_name") or
p.get("generic_name") or ""`, ...). -/
def toCandidate (p : Product) : Candidate :=
  { id := pyOr p.code p.idUnderscore
    product_name := pyOr p.product_name p.generic_name
    brands := p.brands
    categories := p.categories
    image_small_url := p.image_small_url
    image_url := p.image_url }

/-- The parse-and-iterate step of `off_search_api`: `json.loads` +
`data.get("products", [])` inside the `try` (the `except` branch yields
`[]`), followed by the `for p in products` loop, which is outside the
`try`: on an ill-typed `products` value the loop raises and the exception
propagates (`.error ()`). -/
def parseProducts : Raw → Except Unit (List Product)
  | .products ps => .ok ps
  | .malformed => .ok []
  | .illTyped => .error ()

/-- `off_search_api` from `app.py`: fetch through the cache, parse, build
candidate dictionaries, and keep only those with a non-empty
`product_name`; on an ill-typed `products` value the building loop raises
and the exception escapes (`.error ()`).  Also returns the updated cache
state (the cache was already populated by `_off_cached` before the loop
runs, so it is updated even on the raising path) and whether the provider
was invoked. -/
def off_search_api (provider : Provider) (st : CacheState) (query : String)
    (brand : Option String) (page_size : ℕ) :
    Except Unit (List Candidate) × CacheState × Bool :=
  let raw := (off_cached provider st (query, brand, page_size)).1
  ((parseProducts raw).map
      (fun prods => (prods.map toCandidate).filter (fun x => x.product_name ≠ "")),
    (off_cached provider st (query, brand, page_size)).2.1,
    (off_cached provider st (query, brand, page_size)).2.2)

/-! ### `find_matches` (QueryMatcher) -/

/-- Matching threshold from the configuration block (`MATCH_THRESHOLD`). -/
def MATCH_THRESHOLD : ℚ := 60

/-- Brand bonus from the configuration block (`BRAND_BONUS`). -/
def BRAND_BONUS : ℚ := 10

/-- One scored result row of `find_matches`. -/
structure ScoredRow where
  id : String
  name : String
  brand : String
  score : ℚ
  matched : Bool
  details : Breakdown
  image : String
deriving DecidableEq

/-- The deduplication loop of `find_matches`: keep the first occurrence of
each `(id, product_name)` key. -/
def dedupCands : List Candidate → List (String × String) → List Candidate
  | [], _ => []
  | c :: cs, seen =>
    if (c.id, c.product_name) ∈ seen then dedupCands cs seen
    else c :: dedupCands cs ((c.id, c.product_name) :: seen)

/-- The scoring step of `find_matches` for one candidate. -/
def mkScoredRow (L : SimLib) (q b : String) (c : Candidate) : ScoredRow :=
  let sd := score_candidate L q c.product_name b c.brands BRAND_BONUS
  { id := c.id
    name := c.product_name
    brand := c.brands
    score := sd.1
    matched := decide (sd.1 ≥ MATCH_THRESHOLD)
    details := sd.2
    image := pyOr c.image_small_url c.image_url }

/-- Steps 1-4 of `find_matches` (early return on blank query, candidate
fetch — twice when a brand is given —, dedup, scoring), before the sort and
truncation.  Factored out so the sorting contract can be stated about it.
An exception escaping `off_search_api` propagates (there is no `try` in
`find_matches`), with the cache already updated by the fetches that ran. -/
def find_matches_scored (L : SimLib) (provider : Provider) (st : CacheState)
    (query brand : String) (page_size : ℕ) :
    Except Unit (List ScoredRow) × CacheState :=
  let q := safeStr query
  let b := safeStr brand
  if q = "" then (.ok [], st)
  else
    let r1 := off_search_api provider st q none page_size
    match r1.1 with
    | .error e => (.error e, r1.2.1)
    | .ok c1 =>
      if b ≠ "" then
        let r2 := off_search_api provider r1.2.1 q (some b) page_size
        match r2.1 with
        | .error e => (.error e, r2.2.1)
        | .ok c2 =>
          (.ok ((dedupCands (c1 ++ c2) []).map (mkScoredRow L q b)), r2.2.1)
      else (.ok ((dedupCands c1 []).map (mkScoredRow L q b)), r1.2.1)

/-- The comparator of `scored.sort(key=lambda x: x["score"], reverse=True)`:
a stable descending sort by score. -/
def scoreDescLE (x y : ScoredRow) : Bool := decide (y.score ≤ x.score)

/-- `find_matches` from `app.py`: scored candidates, sorted by score
descending (stable) and truncated to `top_n`; an exception raised while
fetching candidates propagates. -/
def find_matches (L : SimLib) (provider : Provider) (st : CacheState)
    (query brand : String) (top_n page_size : ℕ) :
    Except Unit (List ScoredRow) × CacheState :=
  ((find_matches_scored L provider st query brand page_size).1.map
      (fun scored => (scored.mergeSort scoreDescLE).take top_n),
    (find_matches_scored L provider st query brand page_size).2)

/-! ### Two-CSV compare (`_compare_fuzzy`, `compare_run`) -/

/-- A loaded data frame: column names plus rows of cells keyed by column
name (pandas default integer index, i.e. row position). -/
structure Frame where
  columns : List String
  rows : List (List (String × String))
deriving DecidableEq

/-- `row[col]` for a frame row. -/
def getCell (row : List (String × String)) (c : String) : String :=
  ((row.find? (fun p => p.1 = c)).map Prod.snd).getD ""

/-- rapidfuzz `process.extract(query, choices, scorer=fuzz.WRatio, limit)`,
modelled at its interface boundary: it returns a shortlist of indices into
`choices` (the loop in `_compare_fuzzy` uses only the index `j` of each
returned triple), ranked by the cheap metric, each index in range. -/
structure ExtractLib where
  extract : String → List String → ℕ → List ℕ
  extract_lt : ∀ q cs lim, ∀ j ∈ extract q cs lim, j < cs.length

/-- The best-candidate selection loop of `_compare_fuzzy` (lines 860-870 of
`app.py`), with accumulator `best_j`/`best_score` starting at
`None`/`-1.0`; an entry replaces the current best only on a strict
greater-than comparison. -/
def selectBestAux (f : ℕ → ℚ) : List ℕ → Option ℕ → ℚ → Option ℕ × ℚ
  | [], bj, bs => (bj, bs)
  | j :: js, bj, bs =>
    if f j > bs then selectBestAux f js (some j) (f j)
    else selectBestAux f js bj bs

/-- The selection loop started on its initial accumulator. -/
def selectBest (f : ℕ → ℚ) (js : List ℕ) : Option ℕ × ℚ :=
  selectBestAux f js none (-1)

/-- One output row of `_compare_fuzzy` (`""` cells modelled as `none` for
the numeric columns). -/
structure RowResult where
  left_index : ℕ
  left_name : String
  left_brand : String
  right_index : Option ℕ
  right_name : String
  right_brand : String
  score : Option ℚ
  is_match : Bool
deriving DecidableEq

/-- The shortlist limit of `_compare_fuzzy`: `max(10, top_k*4)`. -/
def shortlistLimit (top_k : ℕ) : ℕ := max 10 (top_k * 4)

/-- The per-row ensemble score used when rescoring the shortlist:
`score_candidate(qn, namesR[j], qb, brandsR[j])`. -/
def rowScore (L : SimLib) (qn qb : String) (namesR brandsR : List String)
    (j : ℕ) : ℚ :=
  (score_candidate L qn (namesR.getD j "") qb (brandsR.getD j "") BRAND_BONUS).1

/-- The body of `_compare_fuzzy`'s per-left-row loop. -/
def compareRow (L : SimLib) (E : ExtractLib) (namesR brandsR norm_choices : List String)
    (nameL : String) (brandLCol : Option String) (dfLcols : List String)
    (top_k : ℕ) (idx : ℕ) (row : List (String × String)) : RowResult :=
  let qn := safeStr (getCell row nameL)
  let qb := match brandLCol with
    | some bc => if bc ≠ "" ∧ bc ∈ dfLcols then safeStr (getCell row bc) else ""
    | none => ""
  if qn = "" then
    ⟨idx, qn, qb, none, "", "", none, false⟩
  else
    let shortlist := E.extract (normalize qn) norm_choices (shortlistLimit top_k)
    let bj := (selectBest (rowScore L qn qb namesR brandsR) shortlist).1
    let bs := (selectBest (rowScore L qn qb namesR brandsR) shortlist).2
    match bj with
    | none => ⟨idx, qn, qb, none, "", "", none, false⟩
    | some j =>
      let is_match := decide (bs ≥ MATCH_THRESHOLD)
      ⟨idx, qn, qb,
        if is_match then some j else none,
        if is_match then namesR.getD j "" else "",
        if is_match then brandsR.getD j "" else "",
        some (round1 bs),
        is_match⟩

/-- The iteration of `compareRow` over the left rows in order, with the
pandas integer index. -/
def compareRows (L : SimLib) (E : ExtractLib) (namesR brandsR norm_choices : List String)
    (nameL : String) (brandLCol : Option String) (dfLcols : List String)
    (top_k : ℕ) : ℕ → List (List (String × String)) → List RowResult
  | _, [] => []
  | idx, r :: rs =>
    compareRow L E namesR brandsR norm_choices nameL brandLCol dfLcols top_k idx r ::
      compareRows L E namesR brandsR norm_choices nameL brandLCol dfLcols top_k (idx + 1) rs

/-- The right-side name column of `_compare_fuzzy`. -/
def rightNames (dfR : Frame) (nameR : String) : List String :=
  dfR.rows.map (fun r => safeStr (getCell r nameR))

/-- The right-side brand column of `_compare_fuzzy`
(`if (brandR and brandR in dfR.columns) else [""] * len(dfR)`). -/
def rightBrands (dfR : Frame) (brandR : Option String) : List String :=
  match brandR with
  | some bc =>
    if bc ≠ "" ∧ bc ∈ dfR.columns then dfR.rows.map (fun r => safeStr (getCell r bc))
    else List.replicate dfR.rows.length ""
  | none => List.replicate dfR.rows.length ""

/-- `_compare_fuzzy` from `app.py`: precompute the normalized right names,
then process each left row in order. -/
def compare_fuzzy (L : SimLib) (E : ExtractLib) (dfL dfR : Frame)
    (nameL nameR : String) (brandL brandR : Option String) (top_k : ℕ) :
    List RowResult :=
  let namesR := rightNames dfR nameR
  let brandsR := rightBrands dfR brandR
  let norm_choices := namesR.map normalize
  compareRows L E namesR brandsR norm_choices nameL brandL dfL.columns top_k 0 dfL.rows

/-- The column-cleaning step of `compare_run`
(`df[col] = df[col].astype(str).map(_safe_str)` for the name column and,
when selected, the brand column). -/
def cleanFrame (df : Frame) (nameCol brandCol : String) : Frame :=
  { columns := df.columns
    rows := df.rows.map (fun r =>
      r.map (fun p =>
        if p.1 = nameCol ∨ (brandCol ≠ "" ∧ p.1 = brandCol) then (p.1, safeStr p.2)
        else p)) }

/-- `compare_run` from `app.py` (lines 889-926), from the point where both
frames are loaded: validate the selected columns (two successive checks on
the name columns; a selected brand column that is absent is silently
cleared), clean the selected columns, and run `_compare_fuzzy`.
`.error ()` models the early-returned error page. -/
def compare_run (L : SimLib) (E : ExtractLib) (dfL dfR : Frame)
    (nameL nameR brandL brandR : String) (top_k : ℕ) :
    Except Unit (List RowResult) :=
  if (nameL ∉ dfL.columns ∧ nameL ∉ dfR.columns) ∨
     (nameR ∉ dfL.columns ∧ nameR ∉ dfR.columns) then .error ()
  else if nameL ∉ dfL.columns ∨ nameR ∉ dfR.columns then .error ()
  else
    let brandL' := if brandL ≠ "" ∧ brandL ∉ dfL.columns then "" else brandL
    let brandR' := if brandR ≠ "" ∧ brandR ∉ dfR.columns then "" else brandR
    let dfL' := cleanFrame dfL nameL brandL'
    let dfR' := cleanFrame dfR nameR brandR'
    .ok (compare_fuzzy L E dfL' dfR' nameL nameR
      (if brandL' = "" then none else some brandL')
      (if brandR' = "" then none else some brandR') top_k)

/-! ### Concrete instantiations of the external collaborators, used to
evaluate the theorems on concrete inputs -/

/-- Restricted Damerau–Levenshtein (optimal string alignment) distance,
written with an explicit fuel argument so that it reduces by kernel
computation; `osa` below always supplies enough fuel. -/
def osaFuel : ℕ → List Char → List Char → ℕ
  | 0, a, b => a.length + b.length
  | _ + 1, [], b => b.length
  | _ + 1, a, [] => a.length
  | fuel + 1, x :: xs, y :: ys =>
    let del := osaFuel fuel xs (y :: ys) + 1
    let ins := osaFuel fuel (x :: xs) ys + 1
    let sub := osaFuel fuel xs ys + (if x = y then 0 else 1)
    let base := min del (min ins sub)
    match xs, ys with
    | x' :: xs', y' :: ys' =>
      if x = y' ∧ x' = y then min base (osaFuel fuel xs' ys' + 1) else base
    | _, _ => base

/-- OSA distance with sufficient fuel. -/
def osa (a b : List Char) : ℕ := osaFuel (a.length + b.length + 1) a b

/-- A degenerate similarity ratio in `[0, 100]` (exact match or nothing). -/
def eqRatio (a b : String) : ℚ := if a = b then 100 else 0

/-- The discrete normalized distance, in `[0, 1]`. -/
def discreteDist (a b : String) : ℚ := if a = b then 0 else 1

/-- A concrete `SimLib` satisfying the documented ranges: exact-match ratio
functions, the discrete normalized distance, OSA for the raw edit distance
and identity phonetic codings. -/
def witnessLib : SimLib :=
  { wratio := eqRatio
    pratio := eqRatio
    tokenSetRatio := eqRatio
    dlNormalized := discreteDist
    dlDistance := fun a b => osa a.data b.data
    metaphone := fun s => s
    nysiis := fun s => s
    hammingNormalized := discreteDist
    levenshteinNormalized := discreteDist }

/-- A concrete `ExtractLib`: shortlist the first `lim` indices. -/
def witnessExtract : ExtractLib :=
  { extract := fun _ cs lim => (List.range cs.length).take lim
    extract_lt := by
      intro q cs lim j hj
      exact List.mem_range.mp (List.mem_of_mem_take hj) }

/-- A provider response entry whose resolved name is empty (both
`product_name` and `generic_name` blank) but which carries other data. -/
def badProduct : Product :=
  ⟨"0001", "", "", "", "BrandX", "drinks", "", ""⟩

/-- A well-formed provider response entry. -/
def goodProduct : Product :=
  ⟨"0002", "", "milk", "", "BrandY", "dairy", "", "img"⟩

/-- A provider that always fails (timeout / transport error). -/
def failProvider : Provider := fun _ => .error ()

/-- A provider that always returns a malformed body. -/
def malformedProvider : Provider := fun _ => .ok Raw.malformed

/-- A provider that always returns a parseable body whose `products` value
is ill-typed (for example a bare number where the array of objects should
be). -/
def illTypedProvider : Provider := fun _ => .ok Raw.illTyped

/-- A provider returning one empty-named and one good product. -/
def mixedProvider : Provider := fun _ => .ok (Raw.products [badProduct, goodProduct])

/-- Left frame for concrete join runs. -/
def frameL : Frame := ⟨["n"], [[("n", "milk")], [("n", "bread")]]⟩

/-- Right frame for concrete join runs. -/
def frameR : Frame := ⟨["m"], [[("m", "milk")], [("m", "chips")]]⟩


theorem toLower_toLower (c : Char) : c.toLower.toLower = c.toLower := by
  unfold Char.toLower
  by_cases h : c.toNat ≥ 65 ∧ c.toNat ≤ 90
  · rw [if_pos h]
    have hvalid : (c.toNat + 32).isValidChar := Or.inl (by omega)
    have htn : (Char.ofNat (c.toNat + 32)).toNat = c.toNat + 32 := by
      unfold Char.ofNat
      rw [dif_pos hvalid]
      simp [Char.ofNatAux, Char.toNat, UInt32.toNat]
    rw [if_neg (by omega)]
  · rw [if_neg h, if_neg h]

theorem space_of_pySpace_keepCh {c : Char} (h1 : pySpace c = true)
    (h2 : keepCh c = true) : c = ' ' := by
  have : ((c = ' ' ∨ c = '\t') ∨ c = '\r') ∨ c = '\n' := by
    simpa [pySpace, Char.isWhitespace] using h1
  rcases this with ((rfl | rfl) | rfl) | rfl
  · rfl
  all_goals simp [keepCh] at h2

theorem splitOnP_chunks {α} (p : α → Bool) :
    ∀ (l : List α), ∀ w ∈ l.splitOnP p, ∀ c ∈ w, p c = false ∧ c ∈ l
  | [] => by
    intro w hw c hc
    rw [List.splitOnP_nil] at hw
    simp only [List.mem_singleton] at hw
    subst hw
    simp at hc
  | x :: xs => by
    intro w hw c hc
    rw [List.splitOnP_cons] at hw
    by_cases hx : p x
    · rw [if_pos hx] at hw
      rcases List.mem_cons.mp hw with h | h
      · subst h; simp at hc
      · have := splitOnP_chunks p xs w h c hc
        exact ⟨this.1, List.mem_cons_of_mem _ this.2⟩
    · rw [if_neg hx] at hw
      obtain ⟨h0, t0, hsplit⟩ : ∃ h0 t0, xs.splitOnP p = h0 :: t0 := by
        cases hsp : xs.splitOnP p
        · exact absurd hsp (List.splitOnP_ne_nil p xs)
        · exact ⟨_, _, rfl⟩
      rw [hsplit] at hw
      simp only [List.modifyHead, List.mem_cons] at hw
      rcases hw with h | h
      · subst h
        rcases List.mem_cons.mp hc with rfl | hc'
        · exact ⟨by simpa using hx, List.mem_cons_self _ _⟩
        · have := splitOnP_chunks p xs h0 (by rw [hsplit]; exact List.mem_cons_self _ _) c hc'
          exact ⟨this.1, List.mem_cons_of_mem _ this.2⟩
      · have := splitOnP_chunks p xs w (by rw [hsplit]; exact List.mem_cons_of_mem _ h) c hc
        exact ⟨this.1, List.mem_cons_of_mem _ this.2⟩

theorem mem_pyWords {l : List Char} {w : List Char} (hw : w ∈ pyWords l) :
    w ≠ [] ∧ ∀ c ∈ w, pySpace c = false ∧ c ∈ l := by
  unfold pyWords at hw
  have h1 := List.of_mem_filter hw
  have h2 := List.mem_of_mem_filter hw
  exact ⟨by simpa using h1, splitOnP_chunks pySpace l w h2⟩


theorem pyWords_pyJoin :
    ∀ (ws : List (List Char)), (∀ w ∈ ws, w ≠ []) →
      (∀ w ∈ ws, ∀ c ∈ w, pySpace c = false) →
      pyWords (pyJoin [' '] ws) = ws
  | [], _, _ => by simp [pyJoin, pyWords, List.splitOnP_nil]
  | [w], h1, h2 => by
    have hw : ∀ c ∈ w, ¬ pySpace c := by
      intro c hc
      simp [h2 w (List.mem_singleton_self w) c hc]
    simp only [pyJoin, pyWords]
    rw [List.splitOnP_eq_single _ _ hw]
    simp [h1 w (List.mem_singleton_self w)]
  | w :: w' :: ws, h1, h2 => by
    have hw : ∀ c ∈ w, ¬ pySpace c := by
      intro c hc
      simp [h2 w (List.mem_cons_self _ _) c hc]
    have : pyJoin [' '] (w :: w' :: ws) = w ++ ' ' :: pyJoin [' '] (w' :: ws) := by
      simp [pyJoin]
    rw [this]
    unfold pyWords
    rw [List.splitOnP_first pySpace w hw ' ' (by decide) (pyJoin [' '] (w' :: ws))]
    have ih := pyWords_pyJoin (w' :: ws)
      (fun v hv => h1 v (List.mem_cons_of_mem _ hv))
      (fun v hv => h2 v (List.mem_cons_of_mem _ hv))
    unfold pyWords at ih
    simp only [List.filter_cons]
    rw [if_pos (by simpa using h1 w (List.mem_cons_self _ _))]
    rw [ih]

theorem pyJoin_append_single :
    ∀ (ws : List (List Char)) (v : List Char), ws ≠ [] →
      pyJoin [' '] (ws ++ [v]) = pyJoin [' '] ws ++ ' ' :: v
  | [], _, h => absurd rfl h
  | [w], v, _ => by simp [pyJoin]
  | w :: w' :: ws, v, _ => by
    have ih := pyJoin_append_single (w' :: ws) v (by simp)
    simp only [List.cons_append] at ih ⊢
    simp only [pyJoin] at ih ⊢
    rw [ih]
    simp

theorem pyJoin_reverse :
    ∀ (ws : List (List Char)),
      (pyJoin [' '] ws).reverse = pyJoin [' '] (ws.reverse.map List.reverse)
  | [] => by simp [pyJoin]
  | [w] => by simp [pyJoin]
  | w :: w' :: ws => by
    have ih := pyJoin_reverse (w' :: ws)
    have h2 : pyJoin [' '] (w :: w' :: ws) = w ++ ' ' :: pyJoin [' '] (w' :: ws) := by
      simp [pyJoin]
    rw [h2]
    have hne : (w' :: ws).reverse.map List.reverse ≠ [] := by simp
    have h3 : (w :: w' :: ws).reverse.map List.reverse
        = (w' :: ws).reverse.map List.reverse ++ [w.reverse] := by simp
    rw [h3, pyJoin_append_single _ _ hne, ← ih]
    simp


theorem dropWhile_pyJoin :
    ∀ (ws : List (List Char)), (∀ w ∈ ws, w ≠ []) →
      (∀ w ∈ ws, ∀ c ∈ w, pySpace c = false) →
      (pyJoin [' '] ws).dropWhile pySpace = pyJoin [' '] ws
  | [], _, _ => by simp [pyJoin]
  | w :: ws, h1, h2 => by
    obtain ⟨c, w', rfl⟩ : ∃ c w', w = c :: w' := by
      cases w
      · exact absurd rfl (h1 _ (List.mem_cons_self _ _))
      · exact ⟨_, _, rfl⟩
    have hc : pySpace c = false := h2 _ (List.mem_cons_self _ _) c (List.mem_cons_self _ _)
    obtain ⟨t, ht⟩ : ∃ t, pyJoin [' '] ((c :: w') :: ws) = c :: t := by
      match ws with
      | [] => exact ⟨w', by simp [pyJoin]⟩
      | v :: vs => exact ⟨w' ++ [' '] ++ pyJoin [' '] (v :: vs), by simp [pyJoin]⟩
    rw [ht, List.dropWhile_cons, hc]
    simp

theorem pyStripList_pyJoin (ws : List (List Char)) (h1 : ∀ w ∈ ws, w ≠ [])
    (h2 : ∀ w ∈ ws, ∀ c ∈ w, pySpace c = false) :
    pyStripList (pyJoin [' '] ws) = pyJoin [' '] ws := by
  unfold pyStripList
  rw [dropWhile_pyJoin ws h1 h2, pyJoin_reverse ws]
  rw [dropWhile_pyJoin (ws.reverse.map List.reverse)
    (by
      intro w hw
      rcases List.mem_map.mp hw with ⟨v, hv, rfl⟩
      simpa using h1 v (List.mem_reverse.mp hv))
    (by
      intro w hw c hc
      rcases List.mem_map.mp hw with ⟨v, hv, rfl⟩
      exact h2 v (List.mem_reverse.mp hv) c (List.mem_reverse.mp hc))]
  rw [← pyJoin_reverse ws, List.reverse_reverse]

theorem mem_pyJoin :
    ∀ (ws : List (List Char)) (c : Char), c ∈ pyJoin [' '] ws →
      c = ' ' ∨ ∃ w ∈ ws, c ∈ w
  | [], c, h => by simp [pyJoin] at h
  | [w], c, h => by
    right
    exact ⟨w, List.mem_singleton_self w, by simpa [pyJoin] using h⟩
  | w :: w' :: ws, c, h => by
    have h' : c ∈ w ++ [' '] ++ pyJoin [' '] (w' :: ws) := by simpa [pyJoin] using h
    rcases List.mem_append.mp h' with h'' | htail
    · rcases List.mem_append.mp h'' with hw | hsp
      · exact Or.inr ⟨w, List.mem_cons_self _ _, hw⟩
      · exact Or.inl (by simpa using hsp)
    · rcases mem_pyJoin (w' :: ws) c htail with h3 | ⟨v, hv, hcv⟩
      · exact Or.inl h3
      · exact Or.inr ⟨v, List.mem_cons_of_mem _ hv, hcv⟩

theorem kept_chars (l : List Char) :
    ∀ c ∈ ((pyStripList l).map Char.toLower).map keepOrSpace,
      keepCh c = true ∧ c.toLower = c
  | c, hc => by
    rcases List.mem_map.mp hc with ⟨d, hd, rfl⟩
    rcases List.mem_map.mp hd with ⟨e, _, rfl⟩
    unfold keepOrSpace
    by_cases hk : keepCh e.toLower
    · rw [if_pos hk]
      exact ⟨hk, toLower_toLower e⟩
    · rw [if_neg hk]
      exact ⟨by decide, by decide⟩

theorem normalizeList_chars (l : List Char) :
    ∀ c ∈ normalizeList l, keepCh c = true ∧ c.toLower = c := by
  intro c hc
  unfold normalizeList at hc
  rcases mem_pyJoin _ c hc with rfl | ⟨w, hw, hcw⟩
  · exact ⟨by decide, by decide⟩
  · have h2 := (mem_pyWords hw).2 c hcw
    exact kept_chars l c h2.2

theorem normalizeList_idem (l : List Char) :
    normalizeList (normalizeList l) = normalizeList l := by
  have hws1 : ∀ w ∈ pyWords (((pyStripList l).map Char.toLower).map keepOrSpace), w ≠ [] :=
    fun w hw => (mem_pyWords hw).1
  have hws2 : ∀ w ∈ pyWords (((pyStripList l).map Char.toLower).map keepOrSpace),
      ∀ c ∈ w, pySpace c = false :=
    fun w hw c hc => ((mem_pyWords hw).2 c hc).1
  have hchars := normalizeList_chars l
  have hstrip : pyStripList (normalizeList l) = normalizeList l :=
    pyStripList_pyJoin _ hws1 hws2
  have hlower : (normalizeList l).map Char.toLower = normalizeList l := by
    rw [List.map_congr_left (fun c hc => (hchars c hc).2)]
    exact List.map_id _
  have hkeep : (normalizeList l).map keepOrSpace = normalizeList l := by
    rw [List.map_congr_left (g := fun c => c)]
    · exact List.map_id _
    · intro c hc
      unfold keepOrSpace
      rw [if_pos (hchars c hc).1]
  conv_lhs => rw [normalizeList]
  rw [hstrip, hlower, hkeep]
  show pyJoin [' '] (pyWords (normalizeList l)) = normalizeList l
  conv_lhs => rw [normalizeList]
  rw [pyWords_pyJoin _ hws1 hws2]
  rfl


/-- C8: the normalizer is idempotent — for every text `x`,
`normalize (normalize x) = normalize x`. -/
theorem claim8_theorem (s : String) : normalize (normalize s) = normalize s := by
  unfold normalize
  exact congrArg String.mk (normalizeList_idem s.data)

theorem round1_nonneg {x : ℚ} (hx : 0 ≤ x) : 0 ≤ round1 x := by
  unfold round1
  have h : (0 : ℤ) ≤ round (x * 10) := by
    rw [round_eq]
    exact Int.le_floor.mpr (by push_cast; linarith)
  positivity

theorem round1_le100 {x : ℚ} (h : x ≤ 100) : round1 x ≤ 100 := by
  unfold round1
  have h2 : round (x * 10) ≤ (1000 : ℤ) := by
    rw [round_eq]
    have : (⌊x * 10 + 1 / 2⌋ : ℤ) < 1001 := by
      rw [Int.floor_lt]
      push_cast
      linarith
    omega
  rw [div_le_iff₀ (by norm_num)]
  calc (round (x * 10) : ℚ) ≤ ((1000 : ℤ) : ℚ) := by exact_mod_cast h2
  _ = (100 : ℚ) * 10 := by norm_num

theorem keyboard_distance_nonneg (L : SimLib) (hL : SimLibRanges L) (a b : String) :
    0 ≤ keyboard_distance L a b := by
  unfold keyboard_distance
  dsimp only
  split
  · norm_num
  · exact round1_nonneg (by nlinarith [hL.dlNormalized_le (normalize a) (normalize b)])

theorem keyboard_distance_le (L : SimLib) (hL : SimLibRanges L) (a b : String) :
    keyboard_distance L a b ≤ 100 := by
  unfold keyboard_distance
  dsimp only
  split
  · norm_num
  · exact round1_le100 (by nlinarith [hL.dlNormalized_nonneg (normalize a) (normalize b)])

theorem phonetic_score_nonneg (L : SimLib) (a b : String) :
    0 ≤ phonetic_score L a b := by
  unfold phonetic_score
  dsimp only
  split
  · norm_num
  · split
    · norm_num
    · split
      · refine round1_nonneg ?_
        have h0 := le_max_left (0 : ℚ) (min 1 (if (L.nysiis (normalize a)).length = (L.nysiis (normalize b)).length then 1 - L.hammingNormalized (L.nysiis (normalize a)) (L.nysiis (normalize b)) else 1 - L.levenshteinNormalized (L.nysiis (normalize a)) (L.nysiis (normalize b))))
        nlinarith [h0]
      · norm_num

theorem phonetic_score_le (L : SimLib) (a b : String) :
    phonetic_score L a b ≤ 100 := by
  unfold phonetic_score
  dsimp only
  split
  · norm_num
  · split
    · norm_num
    · split
      · refine round1_le100 ?_
        have h1 : min (1:ℚ) (if (L.nysiis (normalize a)).length = (L.nysiis (normalize b)).length then 1 - L.hammingNormalized (L.nysiis (normalize a)) (L.nysiis (normalize b)) else 1 - L.levenshteinNormalized (L.nysiis (normalize a)) (L.nysiis (normalize b))) ≤ 1 := min_le_left _ _
        have h2 := max_le (by norm_num : (0:ℚ) ≤ 1) h1
        nlinarith [h2]
      · norm_num

theorem short_edit_bonus_nonneg (L : SimLib) (qn cn : String) :
    0 ≤ short_edit_bonus L qn cn := by
  unfold short_edit_bonus
  dsimp only
  split <;> split <;> norm_num <;> split <;> norm_num <;> split <;> norm_num

theorem short_edit_bonus_le (L : SimLib) (qn cn : String) :
    short_edit_bonus L qn cn ≤ 25 := by
  unfold short_edit_bonus
  dsimp only
  split <;> split <;> norm_num <;> split <;> norm_num <;> split <;> norm_num

theorem score_candidate_nonneg (L : SimLib) (hL : SimLibRanges L) {bw : ℚ} (hbw : 0 ≤ bw)
    (q c qb cb : String) : 0 ≤ (score_candidate L q c qb cb bw).1 := by
  unfold score_candidate
  dsimp only
  split
  · norm_num
  · refine round1_nonneg (le_min (by norm_num) ?_)
    have h1 := hL.wratio_nonneg (normalize q) (normalize c)
    have h2 := hL.pratio_nonneg (normalize q) (normalize c)
    have h3 := hL.tokenSetRatio_nonneg (normalize q) (normalize c)
    have h4 := keyboard_distance_nonneg L hL (normalize q) (normalize c)
    have h5 := phonetic_score_nonneg L (normalize q) (normalize c)
    have h6 := short_edit_bonus_nonneg L (normalize q) (normalize c)
    have h7 : (0:ℚ) ≤ (if normalize qb ≠ "" ∧ normalize cb ≠ "" ∧ ((normalize qb).data <:+: (normalize cb).data ∨ (normalize cb).data <:+: (normalize qb).data) then bw else 0) := by
      split
      · exact hbw
      · norm_num
    linarith

theorem score_candidate_le100 (L : SimLib) (bw : ℚ) (q c qb cb : String) :
    (score_candidate L q c qb cb bw).1 ≤ 100 := by
  unfold score_candidate
  dsimp only
  split
  · norm_num
  · exact round1_le100 (min_le_left _ _)

/-- C6: for every input to the ensemble whose normalized names are non-empty,
the final score equals `min(100, weighted sum of the five base signals +
brand bonus + short-edit bonus)` rounded to one decimal; and for every input
whatsoever the produced score lies in the closed interval `[0, 100]`
(given the documented output ranges of the external similarity primitives
and a nonnegative brand weight). -/
theorem claim6_theorem (L : SimLib) (hL : SimLibRanges L) {bw : ℚ} (hbw : 0 ≤ bw)
    (q c qb cb : String) :
    (¬ (normalize q = "" ∨ normalize c = "") →
      (score_candidate L q c qb cb bw).1 =
        round1 (min 100
          (3/10 * L.wratio (normalize q) (normalize c)
            + 3/20 * L.pratio (normalize q) (normalize c)
            + 3/20 * L.tokenSetRatio (normalize q) (normalize c)
            + 1/4 * keyboard_distance L (normalize q) (normalize c)
            + 3/20 * phonetic_score L (normalize q) (normalize c)
            + (if normalize qb ≠ "" ∧ normalize cb ≠ "" ∧ ((normalize qb).data <:+: (normalize cb).data ∨ (normalize cb).data <:+: (normalize qb).data) then bw else 0)
            + short_edit_bonus L (normalize q) (normalize c))))
    ∧ 0 ≤ (score_candidate L q c qb cb bw).1
    ∧ (score_candidate L q c qb cb bw).1 ≤ 100 := by
  refine ⟨?_, score_candidate_nonneg L hL hbw q c qb cb, score_candidate_le100 L bw q c qb cb⟩
  intro hne
  unfold score_candidate
  dsimp only
  rw [if_neg hne]

theorem witnessLib_ranges : SimLibRanges witnessLib := by
  constructor
  all_goals intro a b
  all_goals simp only [witnessLib, eqRatio, discreteDist]
  all_goals split
  all_goals norm_num

unseal Rat.mul Rat.add Rat.sub Rat.inv in
/-- C6 witness: the theorem evaluated at query `"mlk"` against candidate
`"milk"` with the concrete witness library and brand weight 10. -/
theorem claim6_witness :
    0 ≤ (score_candidate witnessLib "mlk" "milk" "" "" 10).1 ∧
    (score_candidate witnessLib "mlk" "milk" "" "" 10).1 ≤ 100 ∧
    (score_candidate witnessLib "mlk" "milk" "" "" 10).1 =
      round1 (min 100
        (3/10 * witnessLib.wratio (normalize "mlk") (normalize "milk")
          + 3/20 * witnessLib.pratio (normalize "mlk") (normalize "milk")
          + 3/20 * witnessLib.tokenSetRatio (normalize "mlk") (normalize "milk")
          + 1/4 * keyboard_distance witnessLib (normalize "mlk") (normalize "milk")
          + 3/20 * phonetic_score witnessLib (normalize "mlk") (normalize "milk")
          + (if normalize "" ≠ "" ∧ normalize "" ≠ "" ∧ ((normalize "").data <:+: (normalize "").data ∨ (normalize "").data <:+: (normalize "").data) then 10 else 0)
          + short_edit_bonus witnessLib (normalize "mlk") (normalize "milk"))) :=
  ⟨(claim6_theorem witnessLib witnessLib_ranges (by norm_num) "mlk" "milk" "" "").2.1,
   (claim6_theorem witnessLib witnessLib_ranges (by norm_num) "mlk" "milk" "" "").2.2,
   (claim6_theorem witnessLib witnessLib_ranges (by norm_num) "mlk" "milk" "" "").1 (by decide)⟩

/-- C4: for every pair of normalized non-empty query and candidate names,
the short-edit bonus computed by the ensemble equals the spec's case
analysis `specShortEditBonus` of the raw Damerau-Levenshtein distance and
the maximum name length: for max length at most 5, bonus 25 at distance 1,
12 at distance 2, and 0 at distance 0 or above 2; otherwise bonus 8 at
distance 1 and 0 elsewhere. -/
theorem claim4_theorem (L : SimLib) (qn cn qb cb : String) (bw : ℚ)
    (hqn : normalize qn = qn) (hcn : normalize cn = cn)
    (hq : qn ≠ "") (hc : cn ≠ "") :
    (score_candidate L qn cn qb cb bw).2.shortEditBonus
        = specShortEditBonus (L.dlDistance qn cn) (max qn.length cn.length)
    ∧ short_edit_bonus L qn cn
        = specShortEditBonus (L.dlDistance qn cn) (max qn.length cn.length) := by
  have hmain : short_edit_bonus L qn cn
      = specShortEditBonus (L.dlDistance qn cn) (max qn.length cn.length) := by
    unfold short_edit_bonus specShortEditBonus
    dsimp only
    by_cases h5 : max qn.length cn.length ≤ 5
    · rw [if_pos h5, if_pos h5]
      by_cases h0 : L.dlDistance qn cn = 0
      · have h1 : L.dlDistance qn cn ≠ 1 := by omega
        have h2 : L.dlDistance qn cn ≠ 2 := by omega
        rw [if_pos h0, if_neg h1, if_neg h2]
      · rw [if_neg h0]
    · rw [if_neg h5, if_neg h5]
  refine ⟨?_, hmain⟩
  unfold score_candidate
  dsimp only
  rw [hqn, hcn, if_neg (by simp [hq, hc])]
  exact hmain

unseal Rat.mul Rat.add Rat.sub Rat.inv in
/-- C4 witness: the theorem evaluated at the already-normalized pair
`"mlk"`/`"milk"` (OSA distance 1, max length 4), where the bonus is 25. -/
theorem claim4_witness :
    ((score_candidate witnessLib "mlk" "milk" "" "" 10).2.shortEditBonus
        = specShortEditBonus (witnessLib.dlDistance "mlk" "milk") (max "mlk".length "milk".length))
    ∧ specShortEditBonus (witnessLib.dlDistance "mlk" "milk") (max "mlk".length "milk".length) = 25 :=
  ⟨(claim4_theorem witnessLib "mlk" "milk" "" "" 10 (by decide) (by decide)
      (by decide) (by decide)).1,
   by decide⟩

theorem selectBestAux_spec (f : ℕ → ℚ) :
    ∀ (js : List ℕ) (bj : Option ℕ) (bs : ℚ),
      (selectBestAux f js bj bs = (bj, bs) ∧ ∀ j ∈ js, f j ≤ bs) ∨
      (∃ pre j post, js = pre ++ j :: post ∧ bs < f j ∧
        selectBestAux f js bj bs = (some j, f j) ∧
        (∀ i ∈ pre, f i < f j) ∧ (∀ i ∈ post, f i ≤ f j))
  | [], bj, bs => Or.inl ⟨rfl, by simp⟩
  | j :: js, bj, bs => by
    by_cases h : f j > bs
    · have step0 : selectBestAux f (j :: js) bj bs
          = if f j > bs then selectBestAux f js (some j) (f j) else selectBestAux f js bj bs := rfl
      have step : selectBestAux f (j :: js) bj bs = selectBestAux f js (some j) (f j) := by
        rw [step0, if_pos h]
      rcases selectBestAux_spec f js (some j) (f j) with ⟨heq, hle⟩ | ⟨pre, j', post, hsplit, hlt, heq, hpre, hpost⟩
      · refine Or.inr ⟨[], j, js, by simp, h, ?_, by simp, hle⟩
        rw [step, heq]
      · refine Or.inr ⟨j :: pre, j', post, by simp [hsplit], lt_trans h hlt, ?_, ?_, hpost⟩
        · rw [step, heq]
        · intro i hi
          rcases List.mem_cons.mp hi with rfl | hi'
          · exact hlt
          · exact hpre i hi'
    · have step0 : selectBestAux f (j :: js) bj bs
          = if f j > bs then selectBestAux f js (some j) (f j) else selectBestAux f js bj bs := rfl
      have step : selectBestAux f (j :: js) bj bs = selectBestAux f js bj bs := by
        rw [step0, if_neg h]
      push_neg at h
      rcases selectBestAux_spec f js bj bs with ⟨heq, hle⟩ | ⟨pre, j', post, hsplit, hlt, heq, hpre, hpost⟩
      · refine Or.inl ⟨by rw [step, heq], ?_⟩
        intro i hi
        rcases List.mem_cons.mp hi with rfl | hi'
        · exact h
        · exact hle i hi'
      · refine Or.inr ⟨j :: pre, j', post, by simp [hsplit], hlt, by rw [step, heq], ?_, hpost⟩
        intro i hi
        rcases List.mem_cons.mp hi with rfl | hi'
        · exact lt_of_le_of_lt h hlt
        · exact hpre i hi'

theorem selectBest_spec (f : ℕ → ℚ) (js : List ℕ) (hne : js ≠ [])
    (h0 : ∀ j ∈ js, 0 ≤ f j) :
    ∃ j pre post, selectBest f js = (some j, f j) ∧ js = pre ++ j :: post ∧
      (∀ i ∈ pre, f i < f j) ∧ (∀ i ∈ post, f i ≤ f j) := by
  rcases selectBestAux_spec f js none (-1) with ⟨_, hle⟩ | ⟨pre, j, post, hsplit, _, heq, hpre, hpost⟩
  · obtain ⟨j, hj⟩ := List.exists_mem_of_ne_nil js hne
    have := h0 j hj
    have := hle j hj
    linarith
  · exact ⟨j, pre, post, heq, hsplit, hpre, hpost⟩

/-- C2: in the BulkFuzzyJoin per-row loop, scanning the shortlist in its
given cheap-metric-ranked order with a strict greater-than comparison on
the full-ensemble score selects a candidate attaining the maximum score
whose earlier shortlist entries all score strictly less — the first
candidate attaining the maximum wins, and later candidates with an equal
score never replace it. -/
theorem claim2_theorem (L : SimLib) (hL : SimLibRanges L) (qn qb : String)
    (namesR brandsR : List String) (sl : List ℕ) (hne : sl ≠ []) :
    ∃ j pre post,
      selectBest (rowScore L qn qb namesR brandsR) sl
        = (some j, rowScore L qn qb namesR brandsR j)
      ∧ sl = pre ++ j :: post
      ∧ (∀ i ∈ pre, rowScore L qn qb namesR brandsR i < rowScore L qn qb namesR brandsR j)
      ∧ (∀ i ∈ post, rowScore L qn qb namesR brandsR i ≤ rowScore L qn qb namesR brandsR j) :=
  selectBest_spec _ sl hne
    (fun j _ => score_candidate_nonneg L hL (by norm_num [BRAND_BONUS]) _ _ _ _)

/-- C2 witness: the theorem evaluated on the concrete right frame with the
left name `"bread"` and the two-element shortlist `[0, 1]`. -/
theorem claim2_witness :
    ∃ j pre post,
      selectBest (rowScore witnessLib "bread" "" (rightNames frameR "m") (rightBrands frameR none))
          [0, 1]
        = (some j, rowScore witnessLib "bread" "" (rightNames frameR "m") (rightBrands frameR none) j)
      ∧ [0, 1] = pre ++ j :: post
      ∧ (∀ i ∈ pre, rowScore witnessLib "bread" "" (rightNames frameR "m") (rightBrands frameR none) i
            < rowScore witnessLib "bread" "" (rightNames frameR "m") (rightBrands frameR none) j)
      ∧ (∀ i ∈ post, rowScore witnessLib "bread" "" (rightNames frameR "m") (rightBrands frameR none) i
            ≤ rowScore witnessLib "bread" "" (rightNames frameR "m") (rightBrands frameR none) j) :=
  claim2_theorem witnessLib witnessLib_ranges "bread" "" (rightNames frameR "m")
    (rightBrands frameR none) [0, 1] (by decide)

theorem scoreDescLE_trans : ∀ (a b c : ScoredRow),
    scoreDescLE a b → scoreDescLE b c → scoreDescLE a c := by
  intro a b c hab hbc
  simp only [scoreDescLE, decide_eq_true_eq] at *
  exact le_trans hbc hab

theorem scoreDescLE_total : ∀ (a b : ScoredRow), scoreDescLE a b || scoreDescLE b a := by
  intro a b
  simp only [scoreDescLE, Bool.or_eq_true, decide_eq_true_eq]
  exact (le_total b.score a.score)

/-- C7: whenever `find_matches` returns a result list (i.e. no exception
escaped the candidate fetches), that list is sorted by final score in
descending order and never longer than `top_n`; it is the `top_n`-prefix
of the stable descending sort of the scored list, and every equal-score
subsequence of the pre-sort scored list survives, in its original order,
as a subsequence of the sorted list — so entries with equal scores retain
their first-seen relative order. -/
theorem claim7_theorem (L : SimLib) (provider : Provider) (st : CacheState)
    (q b : String) (top_n page_size : ℕ) (scored rows : List ScoredRow)
    (hscored : (find_matches_scored L provider st q b page_size).1 = .ok scored)
    (hrows : (find_matches L provider st q b top_n page_size).1 = .ok rows) :
    rows.Pairwise (fun x y => y.score ≤ x.score)
    ∧ rows.length ≤ top_n
    ∧ rows = (scored.mergeSort scoreDescLE).take top_n
    ∧ ∀ c : List ScoredRow, c.Pairwise (fun x y => x.score = y.score) →
        c.Sublist scored → c.Sublist (scored.mergeSort scoreDescLE) := by
  have hr : rows = (scored.mergeSort scoreDescLE).take top_n := by
    unfold find_matches at hrows
    rw [hscored] at hrows
    simpa [Except.map] using hrows.symm
  subst hr
  refine ⟨?_, ?_, rfl, ?_⟩
  · have hs := List.sorted_mergeSort scoreDescLE_trans scoreDescLE_total scored
    have hso := hs.sublist (List.take_sublist top_n _)
    exact hso.imp (fun h => by simpa [scoreDescLE] using h)
  · exact List.length_take_le _ _
  · intro c hc hsub
    refine List.sublist_mergeSort scoreDescLE_trans scoreDescLE_total ?_ hsub
    exact hc.imp (fun h => by simp [scoreDescLE, le_of_eq h.symm, le_of_eq h])

unseal Rat.mul Rat.add Rat.sub Rat.inv in
/-- C7 witness: the theorem evaluated under the mixed provider (a run that
raises nothing); the scored row for `"milk"` is a concrete member of the
pre-sort list, hence survives into the sorted list. -/
theorem claim7_witness :
    (([mkScoredRow witnessLib "milk" "" (toCandidate goodProduct)].mergeSort
        scoreDescLE).take 5).length ≤ 5
    ∧ [mkScoredRow witnessLib "milk" "" (toCandidate goodProduct)].Sublist
        ([mkScoredRow witnessLib "milk" "" (toCandidate goodProduct)].mergeSort scoreDescLE) := by
  have hscored : (find_matches_scored witnessLib mixedProvider [] "milk" "" 40).1
      = .ok [mkScoredRow witnessLib "milk" "" (toCandidate goodProduct)] := by decide
  have hrows : (find_matches witnessLib mixedProvider [] "milk" "" 5 40).1
      = .ok (([mkScoredRow witnessLib "milk" "" (toCandidate goodProduct)].mergeSort
          scoreDescLE).take 5) := by
    show ((find_matches_scored witnessLib mixedProvider [] "milk" "" 40).1.map
        (fun scored => (scored.mergeSort scoreDescLE).take 5)) = _
    rw [hscored]
    rfl
  exact ⟨(claim7_theorem witnessLib mixedProvider [] "milk" "" 5 40 _ _ hscored hrows).2.1,
    (claim7_theorem witnessLib mixedProvider [] "milk" "" 5 40 _ _ hscored hrows).2.2.2
      [mkScoredRow witnessLib "milk" "" (toCandidate goodProduct)]
      (by simp)
      (List.singleton_sublist.mpr (by decide))⟩

theorem off_cached_miss (provider : Provider) (st : CacheState) (k : OffKey)
    (hmiss : cacheLookup st k = none) :
    off_cached provider st k
      = (offRequest provider k, ((k, offRequest provider k) :: st).take 2048, true) := by
  unfold off_cached lruGet
  rw [hmiss]

theorem cacheLookup_take_cons (st : CacheState) (k : OffKey) (v : Raw) :
    cacheLookup (((k, v) :: st).take 2048) k = some v := by
  rw [show (2048 : ℕ) = 2047 + 1 from rfl, List.take_succ_cons]
  unfold cacheLookup
  rw [List.find?_cons_of_pos _ (by simp)]
  rfl

/-- C5 counterexample: a provider body that parses to an object whose
`products` value is ill-typed (such as a bare number, or an array holding a
bare number) passes the `try`-guarded parse and reaches the
candidate-building loop, which raises outside the `try` — the fetch
propagates the error instead of returning an empty list, refuting the
claim that the fetch never raises under any provider failure mode. -/
theorem claim5_counterexample :
    (off_search_api illTypedProvider [] "q" none 40).1 = .error () := by
  rfl

/-- C5 amended: on a fetch that consults the provider, a provider error or
timeout, or a response on which the guarded parse raises (not JSON, or a
non-object top level), yields the empty candidate list without raising;
but a response that parses to an object whose `products` value is not a
list of objects escapes the guard — the candidate-building loop raises and
the error propagates to the caller. -/
theorem claim5_theorem (provider : Provider) (st : CacheState) (q : String)
    (brand : Option String) (ps : ℕ)
    (hmiss : cacheLookup st (q, brand, ps) = none) :
    (provider (q, brand, ps) = .error () ∨ provider (q, brand, ps) = .ok Raw.malformed →
      (off_search_api provider st q brand ps).1 = .ok [])
    ∧ (provider (q, brand, ps) = .ok Raw.illTyped →
      (off_search_api provider st q brand ps).1 = .error ()) := by
  constructor
  · intro hfail
    unfold off_search_api
    rw [off_cached_miss provider st _ hmiss]
    unfold offRequest
    rcases hfail with h | h
    all_goals rw [h]
    all_goals rfl
  · intro hill
    unfold off_search_api
    rw [off_cached_miss provider st _ hmiss]
    unfold offRequest
    rw [hill]
    rfl

/-- C5 witness: the amended theorem evaluated under an always-failing
provider, an always-malformed provider, and an always-ill-typed provider,
each on an empty cache. -/
theorem claim5_witness :
    (off_search_api failProvider [] "q" none 40).1 = .ok []
    ∧ (off_search_api malformedProvider [] "q" none 40).1 = .ok []
    ∧ (off_search_api illTypedProvider [] "q2" none 40).1 = .error () :=
  ⟨(claim5_theorem failProvider [] "q" none 40 rfl).1 (Or.inl rfl),
   (claim5_theorem malformedProvider [] "q" none 40 rfl).1 (Or.inr rfl),
   (claim5_theorem illTypedProvider [] "q2" none 40 rfl).2 rfl⟩

/-- C10: a provider failure's fail-open empty result is itself cached —
after a fetch whose provider call fails for a key, the empty-products
response is stored under that key, and a subsequent fetch for the same key
(under any provider whatsoever) is served from the cache: the provider is
not invoked and the empty list is returned. -/
theorem claim10_theorem (provider provider' : Provider) (st : CacheState) (q : String)
    (brand : Option String) (ps : ℕ)
    (hmiss : cacheLookup st (q, brand, ps) = none)
    (hfail : provider (q, brand, ps) = .error ()) :
    (off_search_api provider st q brand ps).1 = .ok []
    ∧ cacheLookup (off_search_api provider st q brand ps).2.1 (q, brand, ps)
        = some (Raw.products [])
    ∧ (off_search_api provider' (off_search_api provider st q brand ps).2.1 q brand ps).2.2
        = false
    ∧ (off_search_api provider' (off_search_api provider st q brand ps).2.1 q brand ps).1
        = .ok [] := by
  have hreq : offRequest provider (q, brand, ps) = Raw.products [] := by
    unfold offRequest
    rw [hfail]
  have h1 : (off_search_api provider st q brand ps).2.1
      = (((q, brand, ps), Raw.products []) :: st).take 2048 := by
    unfold off_search_api
    rw [off_cached_miss provider st _ hmiss, hreq]
  have h2 : cacheLookup (off_search_api provider st q brand ps).2.1 (q, brand, ps)
      = some (Raw.products []) := by
    rw [h1]
    exact cacheLookup_take_cons st _ _
  have h3 : off_cached provider' (off_search_api provider st q brand ps).2.1 (q, brand, ps)
      = (Raw.products [],
          ((q, brand, ps), Raw.products [])
            :: (off_search_api provider st q brand ps).2.1.filter
                 (fun p => p.1 ≠ (q, brand, ps)), false) := by
    unfold off_cached lruGet
    rw [h2]
  refine ⟨?_, h2, ?_, ?_⟩
  · unfold off_search_api
    rw [off_cached_miss provider st _ hmiss, hreq]
    rfl
  · generalize hst1 : (off_search_api provider st q brand ps).2.1 = st1 at h3
    unfold off_search_api
    rw [h3]
  · generalize hst1 : (off_search_api provider st q brand ps).2.1 = st1 at h3
    unfold off_search_api
    rw [h3]
    rfl

/-- C10 witness: the theorem evaluated with the always-failing provider on
an empty cache, re-fetching under a different (healthy) provider. -/
theorem claim10_witness :
    (off_search_api failProvider [] "q" none 40).1 = .ok []
    ∧ cacheLookup (off_search_api failProvider [] "q" none 40).2.1 ("q", none, 40)
        = some (Raw.products [])
    ∧ (off_search_api mixedProvider (off_search_api failProvider [] "q" none 40).2.1
        "q" none 40).2.2 = false
    ∧ (off_search_api mixedProvider (off_search_api failProvider [] "q" none 40).2.1
        "q" none 40).1 = .ok [] :=
  claim10_theorem failProvider mixedProvider [] "q" none 40 rfl rfl

/-- C3 counterexample: with a provider response containing a record whose
resolved name is empty, the fetch returns only the well-named record, but
the value stored in the cache under the key is the raw, unfiltered
response, whose parse still contains the empty-named record — refuting the
claim that the filtered candidate list is what is stored and that no
empty-named record is ever contained in a cached entry. -/
theorem claim3_counterexample :
    (off_search_api mixedProvider [] "q" none 40).1 = .ok [toCandidate goodProduct]
    ∧ cacheLookup (off_search_api mixedProvider [] "q" none 40).2.1 ("q", none, 40)
        = some (Raw.products [badProduct, goodProduct])
    ∧ parseProducts (Raw.products [badProduct, goodProduct])
        = .ok [badProduct, goodProduct]
    ∧ (toCandidate badProduct).product_name = "" :=
  ⟨by rfl, by decide, by rfl, by decide⟩

/-- C3 amended: the candidate list returned to the caller never contains a
record with an empty resolved name (the empty-name filter runs on every
read), and on a cache miss the value stored under the key is the raw
provider response, unfiltered. -/
theorem claim3_theorem (provider : Provider) (st : CacheState) (q : String)
    (brand : Option String) (ps : ℕ) :
    (∀ cands, (off_search_api provider st q brand ps).1 = .ok cands →
      ∀ c ∈ cands, c.product_name ≠ "")
    ∧ (cacheLookup st (q, brand, ps) = none →
        cacheLookup (off_search_api provider st q brand ps).2.1 (q, brand, ps)
          = some (offRequest provider (q, brand, ps))) := by
  constructor
  · intro cands hc c hcmem
    unfold off_search_api at hc
    dsimp only at hc
    rcases hparse : parseProducts (off_cached provider st (q, brand, ps)).1 with e | prods
    · rw [hparse] at hc
      simp [Except.map] at hc
    · rw [hparse] at hc
      simp only [Except.map, Except.ok.injEq] at hc
      rw [← hc] at hcmem
      have := List.of_mem_filter hcmem
      simpa using this
  · intro hmiss
    unfold off_search_api
    rw [off_cached_miss provider st _ hmiss]
    exact cacheLookup_take_cons st _ _

/-- C3 witness: the amended theorem evaluated under the mixed provider
(one empty-named and one well-named record) on an empty cache. -/
theorem claim3_witness :
    (∀ c ∈ [toCandidate goodProduct], c.product_name ≠ "")
    ∧ cacheLookup (off_search_api mixedProvider [] "q" none 40).2.1 ("q", none, 40)
        = some (offRequest mixedProvider ("q", none, 40)) :=
  ⟨(claim3_theorem mixedProvider [] "q" none 40).1 [toCandidate goodProduct] (by rfl),
   (claim3_theorem mixedProvider [] "q" none 40).2 rfl⟩

theorem compareRows_length (L : SimLib) (E : ExtractLib)
    (namesR brandsR norm_choices : List String) (nameL : String)
    (brandLCol : Option String) (dfLcols : List String) (top_k : ℕ) :
    ∀ (idx : ℕ) (rows : List (List (String × String))),
      (compareRows L E namesR brandsR norm_choices nameL brandLCol dfLcols top_k idx rows).length
        = rows.length
  | _, [] => rfl
  | idx, r :: rs => by
    unfold compareRows
    rw [List.length_cons, List.length_cons,
      compareRows_length L E namesR brandsR norm_choices nameL brandLCol dfLcols top_k (idx + 1) rs]

theorem compare_fuzzy_length (L : SimLib) (E : ExtractLib) (dfL dfR : Frame)
    (nameL nameR : String) (brandL brandR : Option String) (top_k : ℕ) :
    (compare_fuzzy L E dfL dfR nameL nameR brandL brandR top_k).length
      = dfL.rows.length := by
  unfold compare_fuzzy
  exact compareRows_length L E _ _ _ nameL brandL dfL.columns top_k 0 dfL.rows

/-- C1 amended: `compare_run` fails fast — an explicit error and no
per-row results — exactly when a NAME selector is missing from its frame
(left name column not in the left frame, or right name column not in the
right frame); a missing BRAND selector does not abort: it is silently
cleared and the join proceeds, emitting exactly one row per left record. -/
theorem claim1_theorem (L : SimLib) (E : ExtractLib) (dfL dfR : Frame)
    (nameL nameR brandL brandR : String) (top_k : ℕ) :
    ((compare_run L E dfL dfR nameL nameR brandL brandR top_k).toOption = none
      ↔ (nameL ∉ dfL.columns ∨ nameR ∉ dfR.columns))
    ∧ (∀ rows, (compare_run L E dfL dfR nameL nameR brandL brandR top_k).toOption = some rows
        → rows.length = dfL.rows.length) := by
  unfold compare_run
  by_cases h1 : (nameL ∉ dfL.columns ∧ nameL ∉ dfR.columns) ∨
      (nameR ∉ dfL.columns ∧ nameR ∉ dfR.columns)
  · rw [if_pos h1]
    refine ⟨⟨fun _ => ?_, fun _ => rfl⟩, fun rows h => by simp [Except.toOption] at h⟩
    rcases h1 with ⟨h, _⟩ | ⟨_, h⟩
    · exact Or.inl h
    · exact Or.inr h
  · rw [if_neg h1]
    by_cases h2 : nameL ∉ dfL.columns ∨ nameR ∉ dfR.columns
    · rw [if_pos h2]
      exact ⟨⟨fun _ => h2, fun _ => rfl⟩, fun rows h => by simp [Except.toOption] at h⟩
    · rw [if_neg h2]
      refine ⟨⟨fun h => by simp [Except.toOption] at h, fun h => absurd h h2⟩, ?_⟩
      intro rows h
      simp only [Except.toOption, Option.some.injEq] at h
      rw [← h]
      rw [compare_fuzzy_length]
      simp [cleanFrame]

unseal Rat.mul Rat.add Rat.sub Rat.inv in
set_option maxRecDepth 8000 in
/-- C1 counterexample: the brand selector `"b"` is absent from the left
frame's columns, yet `compare_run` succeeds and emits one row per left
record — refuting the claim that ANY missing field selector (brand
selectors included) makes the whole join fail fast with no per-row
results. -/
theorem claim1_counterexample :
    "b" ∉ frameL.columns
    ∧ (compare_run witnessLib witnessExtract frameL frameR "n" "m" "b" "" 5).toOption
        = some [⟨0, "milk", "", some 0, "milk", "", some 100, true⟩,
                ⟨1, "bread", "", none, "", "", some 0, false⟩] :=
  ⟨by decide, by decide⟩

unseal Rat.mul Rat.add Rat.sub Rat.inv in
set_option maxRecDepth 8000 in
/-- C1 witness: the amended theorem evaluated on the concrete frames with
a missing brand selector; the error-iff condition and the row count are
both discharged concretely. -/
theorem claim1_witness :
    ((compare_run witnessLib witnessExtract frameL frameR "n" "m" "b" "" 5).toOption = none
      ↔ ("n" ∉ frameL.columns ∨ "m" ∉ frameR.columns))
    ∧ ([⟨0, "milk", "", some 0, "milk", "", some 100, true⟩,
        ⟨1, "bread", "", none, "", "", some 0, false⟩] : List RowResult).length
        = frameL.rows.length :=
  ⟨(claim1_theorem witnessLib witnessExtract frameL frameR "n" "m" "b" "" 5).1,
   (claim1_theorem witnessLib witnessExtract frameL frameR "n" "m" "b" "" 5).2
     [⟨0, "milk", "", some 0, "milk", "", some 100, true⟩,
      ⟨1, "bread", "", none, "", "", some 0, false⟩]
     (by decide)⟩

theorem compareRows_getD (L : SimLib) (E : ExtractLib)
    (namesR brandsR norm_choices : List String) (nameL : String)
    (brandLCol : Option String) (dfLcols : List String) (top_k : ℕ) (d : RowResult) :
    ∀ (rows : List (List (String × String))) (idx i : ℕ), i < rows.length →
      (compareRows L E namesR brandsR norm_choices nameL brandLCol dfLcols top_k idx rows).getD i d
        = compareRow L E namesR brandsR norm_choices nameL brandLCol dfLcols top_k (idx + i)
            (rows.getD i [])
  | [], _, i, hi => by simp at hi
  | r :: rs, idx, 0, _ => by simp [compareRows]
  | r :: rs, idx, i + 1, hi => by
    unfold compareRows
    rw [List.getD_cons_succ, List.getD_cons_succ,
      compareRows_getD L E namesR brandsR norm_choices nameL brandLCol dfLcols top_k d rs
        (idx + 1) i (by simpa using hi)]
    congr 1
    omega

/-- C9: for a left row whose name is non-empty after normalization, with a
non-empty shortlist whose best full-ensemble score is below the matching
threshold, the emitted row has `is_match = false` and empty `right_index`,
`right_name` and `right_brand` fields, yet its `score` field is still
populated with the best candidate's score rounded to one decimal. -/
theorem claim9_theorem (L : SimLib) (hL : SimLibRanges L) (E : ExtractLib)
    (dfL dfR : Frame) (nameL nameR : String) (brandL brandR : Option String)
    (top_k i : ℕ) (qn qb : String) (sl : List ℕ) (bs : ℚ)
    (hi : i < dfL.rows.length)
    (hqn : qn = safeStr (getCell (dfL.rows.getD i []) nameL))
    (hqb : qb = (match brandL with
      | some bc =>
        if bc ≠ "" ∧ bc ∈ dfL.columns then safeStr (getCell (dfL.rows.getD i []) bc) else ""
      | none => ""))
    (hsl : sl = E.extract (normalize qn) ((rightNames dfR nameR).map normalize)
        (shortlistLimit top_k))
    (hbs : bs = (selectBest (rowScore L qn qb (rightNames dfR nameR) (rightBrands dfR brandR)) sl).2)
    (hname : normalize qn ≠ "") (hne : sl ≠ []) (hbelow : bs < MATCH_THRESHOLD) :
    (compare_fuzzy L E dfL dfR nameL nameR brandL brandR top_k).getD i
        ⟨0, "", "", none, "", "", none, false⟩
      = ⟨i, qn, qb, none, "", "", some (round1 bs), false⟩ := by
  have hqnne : qn ≠ "" := by
    intro h
    rw [h] at hname
    exact hname rfl
  unfold compare_fuzzy
  rw [compareRows_getD L E _ _ _ nameL brandL dfL.columns top_k _ dfL.rows 0 i hi]
  unfold compareRow
  rw [← hqn, ← hqb]
  dsimp only
  rw [← hsl, if_neg hqnne]
  have hnn : ∀ j ∈ sl, 0 ≤ rowScore L qn qb (rightNames dfR nameR) (rightBrands dfR brandR) j := by
    intro j _
    exact score_candidate_nonneg L hL (by norm_num [BRAND_BONUS]) _ _ _ _
  obtain ⟨j, pre, post, hsel, -, -, -⟩ :=
    selectBest_spec (rowScore L qn qb (rightNames dfR nameR) (rightBrands dfR brandR)) sl hne hnn
  rw [hsel]
  dsimp only
  have hbs' : bs = rowScore L qn qb (rightNames dfR nameR) (rightBrands dfR brandR) j := by
    rw [hbs, hsel]
  have hmatch : decide (rowScore L qn qb (rightNames dfR nameR) (rightBrands dfR brandR) j
      ≥ MATCH_THRESHOLD) = false := by
    rw [decide_eq_false_iff_not]
    rw [← hbs']
    exact not_le.mpr hbelow
  rw [hmatch]
  simp [hbs']

unseal Rat.mul Rat.add Rat.sub Rat.inv in
set_option maxRecDepth 8000 in
/-- C9 witness: the theorem evaluated at the second left row (`"bread"`),
whose best score 0 is below the threshold 60; the emitted row reports
score 0 with no right-hand fields. -/
theorem claim9_witness :
    (compare_fuzzy witnessLib witnessExtract frameL frameR "n" "m" none none 5).getD 1
        ⟨0, "", "", none, "", "", none, false⟩
      = ⟨1, "bread", "", none, "", "", some (round1 0), false⟩ :=
  claim9_theorem witnessLib witnessLib_ranges witnessExtract frameL frameR "n" "m" none none 5 1
    "bread" "" [0, 1] 0 (by decide) (by decide) rfl (by decide) (by decide) (by decide)
    (by decide) (by decide)

end FoodRecon
